import Mathlib

/-!
# Verification of the Component Reconciliation Engine

Shallow embedding of the reconciliation core of `src/server/mcp-server.ts`:
the name-similarity matcher (`longestCommonSubsequence`,
`calculateNameSimilarity`), the mapping classifier
(`createComponentMappings`), the consistency scorer
(`calculateConsistencyScore`), and the heuristic component/export/prop
extractors (`extractComponentInfo`, `extractExports`, `extractProps`).

Modelling conventions:
* JavaScript numbers are modelled as exact rationals (`ℚ`); the one place
  where IEEE semantics is observable in this core is `0/0`, which JS
  evaluates to `NaN` — we model a possibly-NaN number as `Option ℚ`
  with `none` standing for `NaN`.
* JS strings are Lean `String`s (lists of characters); `.length` counts
  characters, `toLowerCase()` is character-wise `Char.toLower` (`lowerName`).
* Regular-expression matching is hand-translated: every regex of the
  source is unfolded into an explicit matcher over `List Char` whose
  branch structure follows the regex literally (see the comments at the
  matchers).  Greedy quantifiers whose following token cannot overlap the
  quantified class are translated as maximal munch, which coincides with
  backtracking semantics in those cases.
-/

/-! ## Longest common subsequence and name similarity -/

/-- One row update of the LCS dynamic-programming table of
`longestCommonSubsequence` in the source: given the previous row
(starting at column `j-1`, so its head is the diagonal cell
`matrix[i-1][j-1]` and the next entry is `matrix[i-1][j]`), the current
character `c1 = str1[i-1]` and the value `left = matrix[i][j-1]`, produce
the cells `matrix[i][j], …, matrix[i][len2]`.  The cell formula is the
source's: `diag + 1` on a character match, else `max(up, left)`. -/
def buildRow (c1 : Char) : List Char → List Nat → Nat → List Nat
  | [], _, _ => []
  | y :: ys, prev, left =>
    let diag := prev.headD 0
    let up := prev.tail.headD 0
    let cell := if c1 = y then diag + 1 else max up left
    cell :: buildRow c1 ys prev.tail cell

/-- `longestCommonSubsequence(str1, str2)` from the source: fill a
`(len1+1) × (len2+1)` table row by row (row 0 and column 0 are `0`,
i.e. each row starts with a leading `0` and the initial row is all
zeroes) and return `matrix[len1][len2]`, the last cell of the last row. -/
def longestCommonSubsequence (str1 str2 : String) : Nat :=
  (str1.data.foldl (fun prev c1 => 0 :: buildRow c1 str2.data prev 0)
    (List.replicate (str2.data.length + 1) 0)).getLastD 0

/-- Recursive reference form of the same DP recurrence, peeling one
character at the front of each list.  `lcsList` is related to the table
of `longestCommonSubsequence` by reversal of both arguments (the table
peels the *last* character of each prefix); the bridge is proved in
`longestCommonSubsequence_eq`. -/
def lcsList : List Char → List Char → Nat
  | [], _ => 0
  | _ :: _, [] => 0
  | x :: xs, y :: ys =>
    if x = y then lcsList xs ys + 1
    else max (lcsList xs (y :: ys)) (lcsList (x :: xs) ys)
termination_by a b => a.length + b.length
decreasing_by all_goals simp_arith

/-- `calculateNameSimilarity(name1, name2)` from the source:
`(2 * lcs) / (name1.length + name2.length)` in JS number arithmetic.
When both strings are empty the denominator is `0` and the numerator is
`0` as well, so JS produces `NaN`; this is the `none` branch.  Otherwise
the quotient is the exact rational. -/
def calculateNameSimilarity (name1 name2 : String) : Option ℚ :=
  if name1.length + name2.length = 0 then none
  else some ((2 * (longestCommonSubsequence name1 name2 : ℚ)) /
    ((name1.length : ℚ) + (name2.length : ℚ)))

/-! ## Consistency scoring -/

/-- The part of the mutable `consistencyReport` object that
`calculateConsistencyScore` reads: its `issues` array.  The caller
(`check_design_consistency`) builds `issues` by pushing the issue lists
contributed by the enabled sub-analyses, i.e. `issues` is their
concatenation. -/
structure ConsistencyReport where
  issues : List String
deriving DecidableEq

/-- `calculateConsistencyScore(report)` from the source:
`Math.max(0, 100 - totalIssues * 10)` with
`totalIssues = report.issues?.length || 0`; in the model `issues` is
always present, and `x || 0` is the identity on a count. -/
def calculateConsistencyScore (report : ConsistencyReport) : ℤ :=
  max 0 (100 - (report.issues.length : ℤ) * 10)

/-! ## Data model of the reconciliation -/

/-- A code component record as produced by `extractComponentInfo`:
`{ name, path, framework, size, exports, props }`. -/
structure ComponentInfo where
  name : String
  path : String
  framework : String
  size : Nat
  exports : List String
  props : List String
deriving DecidableEq

/-- The fields of a design (Figma) component that
`createComponentMappings` reads: `name` and the possibly absent
`description`. -/
structure FigmaComponent where
  name : String
  description : Option String
deriving DecidableEq

/-- An entry of `mappings.exact_matches`. -/
structure ExactMatch where
  figma_id : String
  figma_name : String
  code_component : ComponentInfo
  confidence : ℚ
deriving DecidableEq

/-- An element of a `similar_matches` suggestion list:
`{ component, similarity }`. -/
structure Suggestion where
  component : ComponentInfo
  similarity : Option ℚ
deriving DecidableEq

/-- An entry of `mappings.similar_matches`. -/
structure SimilarMatch where
  figma_id : String
  figma_name : String
  suggestions : List Suggestion
deriving DecidableEq

/-- An entry of `mappings.missing_in_code`. -/
structure MissingInCode where
  figma_id : String
  figma_name : String
  description : String
deriving DecidableEq

/-- An entry of `mappings.missing_in_figma` (the projection
`{ name, path, framework }` of a code component). -/
structure MissingInFigma where
  name : String
  path : String
  framework : String
deriving DecidableEq

/-- The four groups returned by `createComponentMappings`. -/
structure Mappings where
  exact_matches : List ExactMatch
  similar_matches : List SimilarMatch
  missing_in_code : List MissingInCode
  missing_in_figma : List MissingInFigma
deriving DecidableEq

/-- `name.toLowerCase()`: character-wise lower-casing (ASCII case
mapping, which is what the component names exercise). -/
def lowerName (s : String) : String :=
  String.mk (s.data.map Char.toLower)

/-- The filter `match.similarity > 0.5` of the source, under JS
comparison semantics: `NaN > 0.5` is `false`, so the `none` (NaN)
similarity never passes. -/
def jsGtHalf (s : Option ℚ) : Bool :=
  match s with
  | none => false
  | some q => decide ((1 : ℚ) / 2 < q)

/-- Sort key used by the comparator `(a, b) => b.similarity - a.similarity`.
The comparator is only ever applied to suggestions that passed the
`> 0.5` filter, whose similarity is a proper number, so reading the
rational out of the option is faithful there. -/
def simKey (s : Suggestion) : ℚ :=
  s.similarity.getD 0

/-- Insertion step of a stable descending sort: `x` moves past exactly
the elements with strictly larger key, so elements with equal keys keep
their original relative order. -/
def insertBySim (x : Suggestion) : List Suggestion → List Suggestion
  | [] => [x]
  | y :: ys => if simKey x < simKey y then y :: insertBySim x ys else x :: y :: ys

/-- Stable sort by descending similarity, modelling the source's
`similarMatches.sort((a, b) => b.similarity - a.similarity)`
(JS `Array.prototype.sort` is required to be stable). -/
def sortBySimDesc : List Suggestion → List Suggestion
  | [] => []
  | x :: xs => insertBySim x (sortBySimDesc xs)

/-- The filtered candidate list of the source's similar-match branch:
map every code component to a `{ component, similarity }` pair against
the lower-cased design name and keep the scores `> 0.5`. -/
def candidatesFor (codeComponents : List ComponentInfo) (figmaName : String) :
    List Suggestion :=
  (codeComponents.map
      (fun cc => ⟨cc, calculateNameSimilarity figmaName (lowerName cc.name)⟩)).filter
    (fun m => jsGtHalf m.similarity)

/-- The `similarMatches` list the source builds for one design component
with no exact match: the filtered candidates, sorted by descending
similarity. -/
def similarMatchesFor (codeComponents : List ComponentInfo) (figmaName : String) :
    List Suggestion :=
  sortBySimDesc (candidatesFor codeComponents figmaName)

/-- One iteration of the `forEach` over `Object.entries(figmaComponents)`
in `createComponentMappings`: classify the entry `(id, figmaComponent)`
and push the produced record onto the corresponding group of the
accumulator. -/
def processEntry (codeComponents : List ComponentInfo) (acc : Mappings)
    (e : String × FigmaComponent) : Mappings :=
  let figmaName := lowerName e.2.name
  match codeComponents.find? (fun cc => lowerName cc.name == figmaName) with
  | some exactMatch =>
    { acc with exact_matches :=
        acc.exact_matches ++ [⟨e.1, e.2.name, exactMatch, 1⟩] }
  | none =>
    let similarMatches := similarMatchesFor codeComponents figmaName
    if similarMatches.isEmpty then
      { acc with missing_in_code :=
          acc.missing_in_code ++ [⟨e.1, e.2.name, e.2.description.getD ""⟩] }
    else
      { acc with similar_matches :=
          acc.similar_matches ++ [⟨e.1, e.2.name, similarMatches.take 3⟩] }

/-- The names consumed by `exact_matches` or suggested by
`similar_matches` (the source's `mappedCodeComponents` set; set
membership is list membership of the name). -/
def mappedNames (m : Mappings) : List String :=
  m.exact_matches.map (fun em => em.code_component.name) ++
    m.similar_matches.flatMap (fun sm => sm.suggestions.map (fun s => s.component.name))

/-- `createComponentMappings(figmaComponents, codeComponents, includeProps)`
from the source.  `figmaComponents` is an object; `Object.entries`
enumerates its key/value pairs in insertion order, modelled as an
association list whose keys are pairwise distinct.  The `includeProps`
argument is accepted and, as in the source, not used by this function. -/
def createComponentMappings (figmaComponents : List (String × FigmaComponent))
    (codeComponents : List ComponentInfo) (includeProps : Bool) : Mappings :=
  let base := figmaComponents.foldl (processEntry codeComponents) ⟨[], [], [], []⟩
  { base with missing_in_figma :=
      ((codeComponents.filter
          (fun cc => !((mappedNames base).contains cc.name))).map
        (fun cc => ⟨cc.name, cc.path, cc.framework⟩)) }

/-- The `exact_matches` record produced for one entry, when the entry
takes the exact-match branch (specification artefact used to
characterize the `forEach` loop; follows `processEntry` case by case). -/
def entryExact (codeComponents : List ComponentInfo) (e : String × FigmaComponent) :
    Option ExactMatch :=
  (codeComponents.find? (fun cc => lowerName cc.name == lowerName e.2.name)).map
    (fun cc => ⟨e.1, e.2.name, cc, 1⟩)

/-- The `similar_matches` record produced for one entry, when the entry
takes the similar-match branch. -/
def entrySimilar (codeComponents : List ComponentInfo) (e : String × FigmaComponent) :
    Option SimilarMatch :=
  match codeComponents.find? (fun cc => lowerName cc.name == lowerName e.2.name) with
  | some _ => none
  | none =>
    let sm := similarMatchesFor codeComponents (lowerName e.2.name)
    if sm.isEmpty then none else some ⟨e.1, e.2.name, sm.take 3⟩

/-- The `missing_in_code` record produced for one entry, when the entry
takes the missing-in-code branch. -/
def entryMissing (codeComponents : List ComponentInfo) (e : String × FigmaComponent) :
    Option MissingInCode :=
  match codeComponents.find? (fun cc => lowerName cc.name == lowerName e.2.name) with
  | some _ => none
  | none =>
    if (similarMatchesFor codeComponents (lowerName e.2.name)).isEmpty then
      some ⟨e.1, e.2.name, e.2.description.getD ""⟩
    else none

/-- A code-component name is referenced by the mapping result when it is
the name of a chosen exact-match component or of a suggested
similar-match component. -/
def ReferencedName (m : Mappings) (n : String) : Prop :=
  (∃ em ∈ m.exact_matches, em.code_component.name = n) ∨
    (∃ sm ∈ m.similar_matches, ∃ s ∈ sm.suggestions, s.component.name = n)

/-! ## Heuristic extraction from source text -/

/-- JS `\w`: ASCII letters, digits and underscore. -/
def isWordChar (c : Char) : Bool :=
  c.isAlphanum || c == '_'

/-- JS `\s`, restricted to the ASCII white-space characters (space, tab,
line feed, carriage return, vertical tab, form feed); the exotic Unicode
spaces of the full JS class do not occur in the analysed claims. -/
def isSpaceChar (c : Char) : Bool :=
  c == ' ' || c == '\t' || c == '\n' || c == '\r' || c == '\x0b' || c == '\x0c'

/-- Match a literal character sequence at the head of the input,
returning the remainder on success. -/
def dropLit : List Char → List Char → Option (List Char)
  | [], l => some l
  | _ :: _, [] => none
  | c :: cs, x :: xs => if c = x then dropLit cs xs else none

/-- `\s+` with maximal munch: at least one white-space character, then
all following white space.  In every regex of the source the token after
`\s+` cannot match a white-space character, so maximal munch coincides
with backtracking semantics. -/
def dropSpaces1 (l : List Char) : Option (List Char) :=
  match l with
  | [] => none
  | x :: xs => if isSpaceChar x then some (xs.dropWhile isSpaceChar) else none

/-- `(\w+)` with maximal munch: the maximal non-empty run of word
characters, returned together with the remainder.  In every regex of the
source the token after `\w+` cannot match a word character, so maximal
munch coincides with backtracking semantics. -/
def wordRun1 (l : List Char) : Option (String × List Char) :=
  let run := l.takeWhile isWordChar
  if run.isEmpty then none else some (String.mk run, l.dropWhile isWordChar)

/-- `(?:function|const|class)\s+(\w+)`: one of the keywords, white
space, and the captured identifier; also returns the remainder after the
identifier.  The keyword alternatives have pairwise distinct first
letters, so trying them in the regex's order is exact. -/
def kwNameAfter (l : List Char) : Option (String × List Char) :=
  match dropLit "function".data l <|> dropLit "const".data l <|> dropLit "class".data l with
  | none => none
  | some r => match dropSpaces1 r with
    | none => none
    | some r2 => wordRun1 r2

/-- First alternative of the react detection pattern:
`export\s+(?:default\s+)?(?:function|const|class)\s+(\w+)` matches at
this position.  The optional `default\s+` group and its absence exclude
each other (after `export\s+` the input cannot begin with both `default`
and one of the three keywords), so the test is the disjunction. -/
def reactAlt1At (l : List Char) : Bool :=
  match dropLit "export".data l with
  | none => false
  | some r1 =>
    match dropSpaces1 r1 with
    | none => false
    | some r2 =>
      (match dropLit "default".data r2 with
        | none => false
        | some rd =>
          match dropSpaces1 rd with
          | none => false
          | some rd2 => (kwNameAfter rd2).isSome)
      || (kwNameAfter r2).isSome

/-- Second alternative of the react detection pattern:
`function\s+(\w+)\s*\(` matches at this position. -/
def reactAlt2At (l : List Char) : Bool :=
  match dropLit "function".data l with
  | none => false
  | some r1 =>
    match dropSpaces1 r1 with
    | none => false
    | some r2 =>
      match wordRun1 r2 with
      | none => false
      | some (_, r3) =>
        match r3.dropWhile isSpaceChar with
        | '(' :: _ => true
        | _ => false

/-- `pattern.test(content)` for the react pattern: some position of the
content starts a match of either alternative. -/
def reactTest (content : String) : Bool :=
  content.data.tails.any (fun t => reactAlt1At t || reactAlt2At t)

/-- `export\s+default\s*\{` matches at this position (second alternative
of the vue pattern). -/
def vueDefaultAt (l : List Char) : Bool :=
  match dropLit "export".data l with
  | none => false
  | some r1 =>
    match dropSpaces1 r1 with
    | none => false
    | some r2 =>
      match dropLit "default".data r2 with
      | none => false
      | some r3 =>
        match r3.dropWhile isSpaceChar with
        | '\x7b' :: _ => true
        | _ => false

/-- The vue pattern `/<template>|export\s+default\s*\{/`. -/
def vueTest (content : String) : Bool :=
  content.data.tails.any
    (fun t => (dropLit "<template>".data t).isSome || vueDefaultAt t)

/-- The angular pattern `/@Component\s*\(/`. -/
def angularTest (content : String) : Bool :=
  content.data.tails.any (fun t =>
    match dropLit "@Component".data t with
    | none => false
    | some r =>
      match r.dropWhile isSpaceChar with
      | '(' :: _ => true
      | _ => false)

/-- The svelte pattern `/<script>|<style>|<[a-zA-Z]/`. -/
def svelteTest (content : String) : Bool :=
  content.data.tails.any (fun t =>
    (dropLit "<script>".data t).isSome || (dropLit "<style>".data t).isSome ||
      (match t with
        | '<' :: c :: _ => c.isAlpha
        | _ => false))

/-- The vanilla pattern `/(?:class\s+(\w+)|function\s+(\w+))/`. -/
def vanillaTest (content : String) : Bool :=
  content.data.tails.any (fun t =>
    (match dropLit "class".data t with
      | none => false
      | some r => match dropSpaces1 r with
        | none => false
        | some r2 => (wordRun1 r2).isSome)
    || (match dropLit "function".data t with
      | none => false
      | some r => match dropSpaces1 r with
        | none => false
        | some r2 => (wordRun1 r2).isSome))

/-- `patterns[framework]` followed by `pattern.test(content)` in
`extractComponentInfo`: `none` when the framework has no pattern. -/
def frameworkTest (framework : String) (content : String) : Option Bool :=
  if framework == "react" then some (reactTest content)
  else if framework == "vue" then some (vueTest content)
  else if framework == "angular" then some (angularTest content)
  else if framework == "svelte" then some (svelteTest content)
  else if framework == "vanilla" then some (vanillaTest content)
  else none

/-- `path.basename(p)` for POSIX paths: strip trailing separators, then
keep the part after the last separator (`"/"` when the path is only
separators, `""` for the empty path). -/
def baseNameOf (p : String) : String :=
  let rev := p.data.reverse
  let revTrimmed := rev.dropWhile (fun c => c = '/')
  if revTrimmed.isEmpty then (if rev.isEmpty then "" else "/")
  else String.mk (revTrimmed.takeWhile (fun c => c ≠ '/')).reverse

/-- `path.extname(p)`: the suffix of the base name from its last dot,
empty when there is no dot or the only dot is the leading character of
the base name (dot files have no extension). -/
def extNameOf (p : String) : String :=
  let base := (baseNameOf p).data
  let revAfterDot := base.reverse.takeWhile (fun c => c ≠ '.')
  if revAfterDot.length + 1 < base.length ∧ revAfterDot.length < base.length then
    String.mk ('.' :: revAfterDot.reverse)
  else ""

/-- `path.basename(filePath, path.extname(filePath))`, the component
name used by `extractComponentInfo`: the base name with its own
extension stripped (the extension, when non-empty, is always a proper
suffix of the base name). -/
def fileNameOf (filePath : String) : String :=
  let base := (baseNameOf filePath).data
  let ext := (extNameOf filePath).data
  String.mk (base.take (base.length - ext.length))

/-- One match of the export-extraction regex
`export\s+(?:default\s+)?(?:function|const|class)\s+(\w+)` starting at
this position: the captured identifier and the remainder of the input
after the whole match.  The `default\s+` branch and its omission exclude
each other (`default` is none of the three keywords), so trying the
greedy branch first is exact. -/
def matchExportAt (l : List Char) : Option (String × List Char) :=
  match dropLit "export".data l with
  | none => none
  | some r1 =>
    match dropSpaces1 r1 with
    | none => none
    | some r2 =>
      match dropLit "default".data r2 with
      | some rd =>
        (match dropSpaces1 rd with
          | none => none
          | some rd2 => kwNameAfter rd2)
      | none => kwNameAfter r2

/-- The `while ((match = exportRegex.exec(content)) !== null)` loop of
`extractExports` with the `g` flag: scan left to right; at a match,
record the capture and resume after the matched text, otherwise advance
one position.  The loop is driven by a fuel counter equal to the initial
length, which suffices because every iteration consumes at least one
character (`exportScanAux_fuel` below proves the fuel is irrelevant
beyond the input length). -/
def exportScanAux : Nat → List Char → List String
  | 0, _ => []
  | _ + 1, [] => []
  | fuel + 1, c :: cs =>
    match matchExportAt (c :: cs) with
    | some (name, rest) => name :: exportScanAux fuel rest
    | none => exportScanAux fuel cs

/-- `extractExports(content, framework)` from the source; the regex does
not depend on the framework. -/
def extractExports (content : String) (framework : String) : List String :=
  exportScanAux content.data.length content.data

/-- One match of the props regex
`(?:interface|type)\s+\w*Props\s*\{([^}]+)\}` starting at this position,
returning the captured body.  `\w*Props` combined with the following
`\s*\{` forces the whole maximal word run at that point to end in
`Props`; `[^}]+\}` captures the non-empty text up to the first closing
brace.  The two keyword alternatives exclude each other. -/
def propsDeclAt (l : List Char) : Option (List Char) :=
  match dropLit "interface".data l <|> dropLit "type".data l with
  | none => none
  | some r1 =>
    match dropSpaces1 r1 with
    | none => none
    | some r2 =>
      let run := r2.takeWhile isWordChar
      if run ≠ [] ∧ "Props".data.isSuffixOf run then
        match (r2.dropWhile isWordChar).dropWhile isSpaceChar with
        | '\x7b' :: r3 =>
          let inner := r3.takeWhile (fun c => c ≠ '\x7d')
          if inner ≠ [] ∧ r3.dropWhile (fun c => c ≠ '\x7d') ≠ [] then some inner
          else none
        | _ => none
      else none

/-- `propsRegex.exec(content)`: the capture of the leftmost match (the
regex object is fresh, so `exec` starts at position 0 and returns the
first match). -/
def firstPropsCapture : List Char → Option (List Char)
  | [] => none
  | c :: cs => propsDeclAt (c :: cs) <|> firstPropsCapture cs

/-- `propsContent.match(/(\w+)(?:\?)?:/g)` followed by
`p.replace(/[\?:]/g, '')`: every maximal word run directly followed by
`:` or `?:` yields a property name (the run itself — it contains neither
`?` nor `:`); scanning resumes after the consumed `:`.  Backtracking
into a word run never helps (the next character would be a word
character, not `?` or `:`), so failed runs are skipped whole. -/
def propTokens : List Char → List String
  | [] => []
  | c :: cs =>
    if isWordChar c then
      match h : cs.dropWhile isWordChar with
      | ':' :: r2 => String.mk (c :: cs.takeWhile isWordChar) :: propTokens r2
      | '?' :: ':' :: r2 => String.mk (c :: cs.takeWhile isWordChar) :: propTokens r2
      | rest => propTokens rest
    else propTokens cs
termination_by l => l.length
decreasing_by
  all_goals simp only [List.length_cons]
  all_goals
    first
    | (have hle : (List.dropWhile isWordChar xs).length ≤ xs.length :=
         (List.dropWhile_sublist isWordChar).length_le
       rw [h] at hle
       try simp only [List.length_cons] at hle
       omega)
    | (have hle : (List.dropWhile isWordChar cs).length ≤ cs.length :=
         (List.dropWhile_sublist isWordChar).length_le
       rw [h] at hle
       try simp only [List.length_cons] at hle
       omega)
    | omega

/-- `extractProps(content, framework)` from the source: for react, the
capture of the first `…Props` declaration split into property-name
tokens; the empty list for every other framework and when there is no
match. -/
def extractProps (content : String) (framework : String) : List String :=
  if framework == "react" then
    match firstPropsCapture content.data with
    | some inner => propTokens inner
    | none => []
  else []

/-- `extractComponentInfo(filePath, content, framework)` from the
source: `null` when the framework has no detection pattern or the
pattern does not match; otherwise the component record. -/
def extractComponentInfo (filePath content framework : String) :
    Option ComponentInfo :=
  match frameworkTest framework content with
  | none => none
  | some false => none
  | some true =>
    some
      { name := fileNameOf filePath
        path := filePath
        framework := framework
        size := content.length
        exports := extractExports content framework
        props := extractProps content framework }

/-- Decidable substring test used to state the C9 hypotheses: some tail
of `l` starts with `pat`. -/
def hasSub (pat l : List Char) : Bool :=
  l.tails.any (fun t => (dropLit pat t).isSome)

/-! ## Bridge: the DP table computes the LCS recurrence -/

/-- Prefix-oriented LCS: the value the source's table holds at
`matrix[i][j]` for prefixes, expressed through `lcsList` on reversed
lists (the table recurrence peels the last character of each prefix,
which is the head after reversal). -/
def lcsP (a b : List Char) : Nat := lcsList a.reverse b.reverse

theorem lcsList_nil_left (b : List Char) : lcsList [] b = 0 := by
  simp [lcsList]

theorem lcsList_nil_right (a : List Char) : lcsList a [] = 0 := by
  cases a <;> simp [lcsList]

theorem lcsList_cons_cons (x y : Char) (xs ys : List Char) :
    lcsList (x :: xs) (y :: ys) =
      if x = y then lcsList xs ys + 1
      else max (lcsList xs (y :: ys)) (lcsList (x :: xs) ys) := by
  simp [lcsList]

theorem lcsP_nil_left (b : List Char) : lcsP [] b = 0 := by
  simp [lcsP, lcsList_nil_left]

theorem lcsP_nil_right (a : List Char) : lcsP a [] = 0 := by
  simp [lcsP, lcsList_nil_right]

theorem lcsP_snoc_snoc (x y : Char) (a b : List Char) :
    lcsP (a ++ [x]) (b ++ [y]) =
      if x = y then lcsP a b + 1
      else max (lcsP a (b ++ [y])) (lcsP (a ++ [x]) b) := by
  simp only [lcsP, List.reverse_append, List.reverse_cons, List.reverse_nil,
    List.nil_append, List.cons_append, List.singleton_append]
  exact lcsList_cons_cons x y a.reverse b.reverse

theorem headD_eq_getD (l : List Nat) (d : Nat) : l.headD d = l.getD 0 d := by
  cases l <;> rfl

theorem tail_headD_eq_getD (l : List Nat) (d : Nat) :
    l.tail.headD d = l.getD 1 d := by
  cases l with
  | nil => rfl
  | cons a as => simpa using headD_eq_getD as d

theorem buildRow_length (c1 : Char) :
    ∀ (ys : List Char) (prev : List Nat) (left : Nat),
      (buildRow c1 ys prev left).length = ys.length := by
  intro ys
  induction ys with
  | nil => intro prev left; simp [buildRow]
  | cons y ys ih => intro prev left; simp [buildRow, ih]

theorem buildRow_spec (c1 : Char) (pre : List Char) :
    ∀ (ys done : List Char) (prev : List Nat) (left : Nat),
      (∀ k, k ≤ ys.length → prev.getD k 0 = lcsP pre (done ++ ys.take k)) →
      left = lcsP (pre ++ [c1]) done →
      buildRow c1 ys prev left =
        (List.range ys.length).map
          (fun j => lcsP (pre ++ [c1]) (done ++ ys.take (j + 1))) := by
  intro ys
  induction ys with
  | nil => intro done prev left _ _; simp [buildRow]
  | cons y ys ih =>
    intro done prev left hprev hleft
    have hdiag : prev.headD 0 = lcsP pre done := by
      have h0 := hprev 0 (Nat.zero_le _)
      rw [headD_eq_getD]
      simpa using h0
    have hup : prev.tail.headD 0 = lcsP pre (done ++ [y]) := by
      have h1 := hprev 1 (by simp)
      rw [tail_headD_eq_getD]
      simpa using h1
    have hcell :
        (if c1 = y then prev.headD 0 + 1 else max (prev.tail.headD 0) left) =
          lcsP (pre ++ [c1]) (done ++ [y]) := by
      rw [lcsP_snoc_snoc, hdiag, hup, hleft]
    have hrec :
        buildRow c1 ys prev.tail (lcsP (pre ++ [c1]) (done ++ [y])) =
          (List.range ys.length).map
            (fun j => lcsP (pre ++ [c1]) ((done ++ [y]) ++ ys.take (j + 1))) := by
      apply ih
      · intro k hk
        have := hprev (k + 1) (by simpa using Nat.succ_le_succ hk)
        simpa [List.getD, List.getElem?_tail, List.append_assoc] using this
      · rfl
    calc buildRow c1 (y :: ys) prev left
        = (if c1 = y then prev.headD 0 + 1 else max (prev.tail.headD 0) left) ::
            buildRow c1 ys prev.tail
              (if c1 = y then prev.headD 0 + 1 else max (prev.tail.headD 0) left) := by
          simp [buildRow]
      _ = lcsP (pre ++ [c1]) (done ++ [y]) ::
            buildRow c1 ys prev.tail (lcsP (pre ++ [c1]) (done ++ [y])) := by
          rw [hcell]
      _ = (List.range (y :: ys).length).map
            (fun j => lcsP (pre ++ [c1]) (done ++ (y :: ys).take (j + 1))) := by
          rw [hrec]
          simp only [List.length_cons, List.range_succ_eq_map, List.map_cons,
            List.map_map]
          congr 1
          simp [Function.comp, List.append_assoc, List.take_succ_cons]

theorem replicate_getD (n k : Nat) : (List.replicate n (0 : Nat)).getD k 0 = 0 := by
  induction n generalizing k with
  | zero => simp [List.getD]
  | succ n ih =>
    cases k with
    | zero => simp [List.replicate]
    | succ k => rw [List.replicate, List.getD_cons_succ]; exact ih k

theorem foldRows_spec (s2 : List Char) :
    ∀ (chars pre : List Char) (row : List Nat),
      row.length = s2.length + 1 →
      (∀ k, k ≤ s2.length → row.getD k 0 = lcsP pre (s2.take k)) →
      (chars.foldl (fun prev c1 => 0 :: buildRow c1 s2 prev 0) row).length
          = s2.length + 1 ∧
      ∀ k, k ≤ s2.length →
        (chars.foldl (fun prev c1 => 0 :: buildRow c1 s2 prev 0) row).getD k 0
          = lcsP (pre ++ chars) (s2.take k) := by
  intro chars
  induction chars with
  | nil =>
    intro pre row hlen hrow
    exact ⟨by simpa using hlen, by simpa using hrow⟩
  | cons c1 cs ih =>
    intro pre row hlen hrow
    have hbr : buildRow c1 s2 row 0 =
        (List.range s2.length).map
          (fun j => lcsP (pre ++ [c1]) (s2.take (j + 1))) := by
      have := buildRow_spec c1 pre s2 [] row 0
        (by intro k hk; simpa using hrow k hk) (lcsP_nil_right _).symm
      simpa using this
    have hlen' : (0 :: buildRow c1 s2 row 0).length = s2.length + 1 := by
      simp [buildRow_length]
    have hrow' : ∀ k, k ≤ s2.length →
        (0 :: buildRow c1 s2 row 0).getD k 0 = lcsP (pre ++ [c1]) (s2.take k) := by
      intro k hk
      cases k with
      | zero => simp [List.getD, lcsP_nil_right]
      | succ k =>
        have hk' : k < s2.length := by omega
        rw [List.getD_cons_succ, hbr]
        simp [List.getD, List.getElem?_map, List.getElem?_range, hk']
    have := ih (pre ++ [c1]) (0 :: buildRow c1 s2 row 0) hlen' hrow'
    simpa [List.append_assoc] using this

theorem getLastD_of_length (l : List Nat) (n : Nat) (h : l.length = n + 1) :
    l.getLastD 0 = l.getD n 0 := by
  rw [List.getLastD_eq_getLast?, List.getLast?_eq_getElem?, List.getD_eq_getElem?_getD, h]
  simp

/-- The table-filling `longestCommonSubsequence` computes the recursive
LCS recurrence on the reversed character lists. -/
theorem longestCommonSubsequence_eq (s1 s2 : String) :
    longestCommonSubsequence s1 s2 = lcsList s1.data.reverse s2.data.reverse := by
  have hinit : ∀ k, k ≤ s2.data.length →
      (List.replicate (s2.data.length + 1) (0 : Nat)).getD k 0
        = lcsP [] (s2.data.take k) := by
    intro k _
    rw [replicate_getD, lcsP_nil_left]
  have h := foldRows_spec s2.data s1.data [] (List.replicate (s2.data.length + 1) 0)
    (by simp) hinit
  have hfin := h.2 s2.data.length (le_refl _)
  rw [List.take_length] at hfin
  unfold longestCommonSubsequence
  rw [getLastD_of_length _ s2.data.length h.1, hfin]
  rfl

theorem lcsList_comm (a b : List Char) : lcsList a b = lcsList b a := by
  induction a, b using lcsList.induct with
  | case1 b => rw [lcsList_nil_left, lcsList_nil_right]
  | case2 x xs => rw [lcsList_nil_left, lcsList_nil_right]
  | case3 xs y ys ih =>
    rw [lcsList_cons_cons, lcsList_cons_cons, if_pos rfl, if_pos rfl, ih]
  | case4 x xs y ys hxy ih1 ih2 =>
    have hyx : ¬ y = x := fun h => hxy h.symm
    rw [lcsList_cons_cons, lcsList_cons_cons, if_neg hxy, if_neg hyx, ih1, ih2,
      Nat.max_comm]

theorem lcsList_self (a : List Char) : lcsList a a = a.length := by
  induction a with
  | nil => rw [lcsList_nil_left]; rfl
  | cons x xs ih => rw [lcsList_cons_cons, if_pos rfl, ih]; rfl

theorem lcsList_le_left (a b : List Char) : lcsList a b ≤ a.length := by
  induction a, b using lcsList.induct with
  | case1 b => simp [lcsList_nil_left]
  | case2 x xs => simp [lcsList_nil_right]
  | case3 xs y ys ih =>
    rw [lcsList_cons_cons, if_pos rfl]
    simpa using ih
  | case4 x xs y ys hxy ih1 ih2 =>
    rw [lcsList_cons_cons, if_neg hxy]
    apply max_le
    · exact le_trans ih1 (by simp)
    · exact ih2

theorem lcsList_le_right (a b : List Char) : lcsList a b ≤ b.length := by
  rw [lcsList_comm]; exact lcsList_le_left b a

theorem longestCommonSubsequence_comm (s1 s2 : String) :
    longestCommonSubsequence s1 s2 = longestCommonSubsequence s2 s1 := by
  rw [longestCommonSubsequence_eq, longestCommonSubsequence_eq, lcsList_comm]

theorem longestCommonSubsequence_self (s : String) :
    longestCommonSubsequence s s = s.length := by
  rw [longestCommonSubsequence_eq, lcsList_self, List.length_reverse]
  rfl

theorem longestCommonSubsequence_le_left (s1 s2 : String) :
    longestCommonSubsequence s1 s2 ≤ s1.length := by
  rw [longestCommonSubsequence_eq]
  have h := lcsList_le_left s1.data.reverse s2.data.reverse
  rw [List.length_reverse] at h
  exact h

theorem longestCommonSubsequence_le_right (s1 s2 : String) :
    longestCommonSubsequence s1 s2 ≤ s2.length := by
  rw [longestCommonSubsequence_comm]
  exact longestCommonSubsequence_le_left s2 s1

/-! ## The stable descending sort -/

theorem insertBySim_perm (x : Suggestion) (l : List Suggestion) :
    (insertBySim x l).Perm (x :: l) := by
  induction l with
  | nil => exact List.Perm.refl _
  | cons y ys ih =>
    rw [insertBySim]
    split
    · exact (ih.cons y).trans (List.Perm.swap x y ys)
    · exact List.Perm.refl _

theorem sortBySimDesc_perm (l : List Suggestion) :
    (sortBySimDesc l).Perm l := by
  induction l with
  | nil => exact List.Perm.refl _
  | cons x xs ih =>
    rw [sortBySimDesc]
    exact (insertBySim_perm x (sortBySimDesc xs)).trans (ih.cons x)

theorem insertBySim_sorted (x : Suggestion) (l : List Suggestion)
    (h : l.Pairwise (fun a b => simKey b ≤ simKey a)) :
    (insertBySim x l).Pairwise (fun a b => simKey b ≤ simKey a) := by
  induction l with
  | nil => exact List.pairwise_singleton _ x
  | cons y ys ih =>
    rcases List.pairwise_cons.mp h with ⟨hy, hys⟩
    rw [insertBySim]
    split
    · rename_i hlt
      refine List.pairwise_cons.mpr ⟨?_, ih hys⟩
      intro z hz
      have hz' := (insertBySim_perm x ys).mem_iff.mp hz
      rcases List.mem_cons.mp hz' with rfl | hz''
      · exact le_of_lt hlt
      · exact hy z hz''
    · rename_i hnlt
      refine List.pairwise_cons.mpr ⟨?_, List.pairwise_cons.mpr ⟨hy, hys⟩⟩
      intro z hz
      rcases List.mem_cons.mp hz with rfl | hz'
      · exact le_of_not_lt hnlt
      · exact le_trans (hy z hz') (le_of_not_lt hnlt)

theorem sortBySimDesc_sorted (l : List Suggestion) :
    (sortBySimDesc l).Pairwise (fun a b => simKey b ≤ simKey a) := by
  induction l with
  | nil => exact List.Pairwise.nil
  | cons x xs ih =>
    rw [sortBySimDesc]
    exact insertBySim_sorted x (sortBySimDesc xs) ih

theorem insertBySim_filter_key (x : Suggestion) (l : List Suggestion) (q : ℚ) :
    (insertBySim x l).filter (fun s => decide (simKey s = q)) =
      if simKey x = q then x :: l.filter (fun s => decide (simKey s = q))
      else l.filter (fun s => decide (simKey s = q)) := by
  induction l with
  | nil =>
    show List.filter _ [x] = _
    by_cases hxq : simKey x = q <;> simp [List.filter_singleton, hxq]
  | cons y ys ih =>
    rw [insertBySim]
    split
    · rename_i hlt
      rw [List.filter_cons, List.filter_cons, ih]
      by_cases hyq : simKey y = q
      · have hxq : ¬ simKey x = q := by
          intro hx
          rw [hx, hyq] at hlt
          exact lt_irrefl _ hlt
        simp [hxq, hyq]
      · by_cases hxq : simKey x = q <;> simp [hxq, hyq]
    · rw [List.filter_cons]
      by_cases hxq : simKey x = q
      · rw [if_pos hxq]
        simp only [List.filter_cons]
        simp [hxq]
      · rw [if_neg hxq]
        simp only [List.filter_cons]
        simp [hxq]

theorem sortBySimDesc_stable (l : List Suggestion) (q : ℚ) :
    (sortBySimDesc l).filter (fun s => decide (simKey s = q)) =
      l.filter (fun s => decide (simKey s = q)) := by
  induction l with
  | nil => rfl
  | cons x xs ih =>
    rw [sortBySimDesc, insertBySim_filter_key, List.filter_cons]
    by_cases hxq : simKey x = q
    · rw [if_pos hxq, ih]
      simp [hxq]
    · rw [if_neg hxq, ih]
      simp [hxq]

/-! ## Characterization of the mapping classifier -/

theorem foldl_processEntry (ccs : List ComponentInfo) :
    ∀ (es : List (String × FigmaComponent)) (acc : Mappings),
      es.foldl (processEntry ccs) acc =
        ⟨acc.exact_matches ++ es.filterMap (entryExact ccs),
          acc.similar_matches ++ es.filterMap (entrySimilar ccs),
          acc.missing_in_code ++ es.filterMap (entryMissing ccs),
          acc.missing_in_figma⟩ := by
  intro es
  induction es with
  | nil => intro acc; simp
  | cons e es ih =>
    intro acc
    rw [List.foldl_cons, ih]
    cases hfind : ccs.find? (fun cc => lowerName cc.name == lowerName e.2.name) with
    | some cm =>
      simp [processEntry, entryExact, entrySimilar, entryMissing, hfind,
        List.filterMap_cons]
    | none =>
      cases hempty : (similarMatchesFor ccs (lowerName e.2.name)).isEmpty with
      | true =>
        simp [processEntry, entryExact, entrySimilar, entryMissing, hfind, hempty,
          List.filterMap_cons]
      | false =>
        simp [processEntry, entryExact, entrySimilar, entryMissing, hfind, hempty,
          List.filterMap_cons]

theorem createComponentMappings_exact (es : List (String × FigmaComponent))
    (ccs : List ComponentInfo) (ip : Bool) :
    (createComponentMappings es ccs ip).exact_matches = es.filterMap (entryExact ccs) := by
  unfold createComponentMappings
  rw [foldl_processEntry]
  simp

theorem createComponentMappings_similar (es : List (String × FigmaComponent))
    (ccs : List ComponentInfo) (ip : Bool) :
    (createComponentMappings es ccs ip).similar_matches = es.filterMap (entrySimilar ccs) := by
  unfold createComponentMappings
  rw [foldl_processEntry]
  simp

theorem createComponentMappings_missing (es : List (String × FigmaComponent))
    (ccs : List ComponentInfo) (ip : Bool) :
    (createComponentMappings es ccs ip).missing_in_code = es.filterMap (entryMissing ccs) := by
  unfold createComponentMappings
  rw [foldl_processEntry]
  simp

theorem createComponentMappings_missing_figma (es : List (String × FigmaComponent))
    (ccs : List ComponentInfo) (ip : Bool) :
    (createComponentMappings es ccs ip).missing_in_figma =
      (ccs.filter
          (fun cc => !((mappedNames (createComponentMappings es ccs ip)).contains cc.name))).map
        (fun cc => ⟨cc.name, cc.path, cc.framework⟩) := by
  conv_lhs => unfold createComponentMappings
  have hm : mappedNames (createComponentMappings es ccs ip) =
      mappedNames (es.foldl (processEntry ccs) ⟨[], [], [], []⟩) := by
    unfold createComponentMappings mappedNames
    rfl
  rw [hm]

theorem entry_cases (ccs : List ComponentInfo) (e : String × FigmaComponent) :
    ((entryExact ccs e).isSome ∧ entrySimilar ccs e = none ∧ entryMissing ccs e = none) ∨
    (entryExact ccs e = none ∧ (entrySimilar ccs e).isSome ∧ entryMissing ccs e = none) ∨
    (entryExact ccs e = none ∧ entrySimilar ccs e = none ∧ (entryMissing ccs e).isSome) := by
  cases hfind : ccs.find? (fun cc => lowerName cc.name == lowerName e.2.name) with
  | some cm =>
    left
    simp [entryExact, entrySimilar, entryMissing, hfind]
  | none =>
    cases hempty : (similarMatchesFor ccs (lowerName e.2.name)).isEmpty with
    | true =>
      right; right
      simp [entryExact, entrySimilar, entryMissing, hfind, hempty]
    | false =>
      right; left
      simp [entryExact, entrySimilar, entryMissing, hfind, hempty]

theorem filterMap_map_key {α β : Type} (f : α → Option β) (g : β → String)
    (key : α → String) (h : ∀ a b, f a = some b → g b = key a) :
    ∀ es : List α,
      (es.filterMap f).map g = (es.filter (fun a => (f a).isSome)).map key := by
  intro es
  induction es with
  | nil => rfl
  | cons a as ih =>
    rw [List.filterMap_cons, List.filter_cons]
    cases hfa : f a with
    | none => simpa [hfa] using ih
    | some b =>
      rw [List.map_cons, ih]
      simp [hfa, h a b hfa]

theorem count_filter_partition {α : Type} (p1 p2 p3 : α → Bool) (key : α → String)
    (id : String) :
    ∀ es : List α,
      (∀ a ∈ es, (p1 a ∧ ¬p2 a ∧ ¬p3 a) ∨ (¬p1 a ∧ p2 a ∧ ¬p3 a) ∨
        (¬p1 a ∧ ¬p2 a ∧ p3 a)) →
      ((es.filter p1).map key).count id + ((es.filter p2).map key).count id +
          ((es.filter p3).map key).count id =
        (es.map key).count id := by
  intro es
  induction es with
  | nil => intro _; rfl
  | cons a as ih =>
    intro h
    have ha := h a (List.mem_cons_self a as)
    have has : ∀ b ∈ as, (p1 b ∧ ¬p2 b ∧ ¬p3 b) ∨ (¬p1 b ∧ p2 b ∧ ¬p3 b) ∨
        (¬p1 b ∧ ¬p2 b ∧ p3 b) := fun b hb => h b (List.mem_cons_of_mem a hb)
    have hrec := ih has
    rcases ha with ⟨h1, h2, h3⟩ | ⟨h1, h2, h3⟩ | ⟨h1, h2, h3⟩ <;>
      simp only [List.filter_cons, h1, h2, h3, if_pos, if_neg, Bool.not_eq_true,
        List.map_cons, List.count_cons] <;>
      simp only [Bool.not_eq_true] at h1 h2 h3 <;>
      simp [h1, h2, h3, List.count_cons] <;>
      omega

/-! ## Claims about the similarity function and the score -/

theorem string_eq_empty_of_length (s : String) (h : s.length = 0) : s = "" := by
  cases s with
  | mk data =>
    simp [String.length] at h
    exact congrArg String.mk h

/-- C3, counterexample: `calculateNameSimilarity("", "")` is NaN
(modelled `none`), not `0` — the division by `len1 + len2` is not
guarded in the source. -/
theorem c3_empty_counterexample :
    calculateNameSimilarity "" "" = none ∧ calculateNameSimilarity "" "" ≠ some 0 := by
  decide

/-- C3 (amended): the division in `calculateNameSimilarity` is *not*
guarded: on the both-empty input the source evaluates `0/0`, which is JS
`NaN` (modelled `none`), rather than `0`; for every other input the
division is well defined, and the both-empty input is the only NaN
case. -/
theorem c3_nan_exactly_on_empty (name1 name2 : String) :
    calculateNameSimilarity name1 name2 = none ↔ (name1 = "" ∧ name2 = "") := by
  unfold calculateNameSimilarity
  by_cases h : name1.length + name2.length = 0
  · rw [if_pos h]
    refine ⟨fun _ => ⟨?_, ?_⟩, fun _ => rfl⟩
    · exact string_eq_empty_of_length _ (by omega)
    · exact string_eq_empty_of_length _ (by omega)
  · rw [if_neg h]
    constructor
    · intro hc
      simp at hc
    · rintro ⟨rfl, rfl⟩
      simp at h

/-- C3 amended-theorem witness at the concrete both-empty input. -/
theorem c3_nan_exactly_on_empty_witness :
    calculateNameSimilarity "" "" = none := by
  rw [c3_nan_exactly_on_empty]
  exact ⟨rfl, rfl⟩

/-- C4: away from the both-empty input, the similarity is the exact
rational `2·LCS / (len1 + len2)` for the DP-computed LCS length; it lies
in `[0, 1]`, and it is `1` on equal inputs (hence on every non-empty
`a`, `similarity(a, a) = 1`). -/
theorem c4_similarity_formula (a b : String) (h : ¬(a = "" ∧ b = "")) :
    ∃ q : ℚ, calculateNameSimilarity a b = some q ∧
      q = 2 * (longestCommonSubsequence a b : ℚ) /
        ((a.length : ℚ) + (b.length : ℚ)) ∧
      0 ≤ q ∧ q ≤ 1 ∧ (a = b → q = 1) := by
  have hlen : ¬ a.length + b.length = 0 := by
    intro h0
    exact h ⟨string_eq_empty_of_length a (by omega),
      string_eq_empty_of_length b (by omega)⟩
  have hd : (0 : ℚ) < (a.length : ℚ) + (b.length : ℚ) := by
    have hpos : 0 < a.length + b.length := Nat.pos_of_ne_zero hlen
    exact_mod_cast hpos
  refine ⟨_, ?_, rfl, ?_, ?_, ?_⟩
  · unfold calculateNameSimilarity
    rw [if_neg hlen]
  · apply div_nonneg
    · positivity
    · exact le_of_lt hd
  · rw [div_le_one hd]
    have hL1 := longestCommonSubsequence_le_left a b
    have hL2 := longestCommonSubsequence_le_right a b
    have hsum : 2 * longestCommonSubsequence a b ≤ a.length + b.length := by omega
    push_cast
    exact_mod_cast hsum
  · intro hab
    subst hab
    rw [longestCommonSubsequence_self]
    have hane : (a.length : ℚ) ≠ 0 := by
      have : a.length ≠ 0 := by omega
      exact_mod_cast this
    field_simp
    ring

/-- C4 witness: at `a = b = "ab"`, the similarity is a defined rational
equal to the formula, within bounds, and equal to `1`. -/
theorem c4_similarity_formula_witness :
    ∃ q : ℚ, calculateNameSimilarity "ab" "ab" = some q ∧
      q = 2 * (longestCommonSubsequence "ab" "ab" : ℚ) /
        (((("ab" : String).length : ℚ)) + ((("ab" : String).length : ℚ))) ∧
      0 ≤ q ∧ q ≤ 1 ∧ (("ab" : String) = "ab" → q = 1) :=
  c4_similarity_formula "ab" "ab" (by decide)

/-- C5: the similarity is symmetric in its two arguments. -/
theorem c5_similarity_symm (a b : String) :
    calculateNameSimilarity a b = calculateNameSimilarity b a := by
  unfold calculateNameSimilarity
  rw [longestCommonSubsequence_comm, Nat.add_comm a.length b.length,
    add_comm (a.length : ℚ) (b.length : ℚ)]

/-- C8: the consistency score is `max(0, 100 − 10·totalIssues)` over the
concatenated issue lists; 2 issues score 80, 11 issues score 0, and one
more issue on a positive-score report lowers the score by exactly 10. -/
theorem c8_consistency_score (l1 l2 : List String) (r : ConsistencyReport)
    (i : String) :
    calculateConsistencyScore ⟨l1 ++ l2⟩ =
        max 0 (100 - 10 * ((l1.length : ℤ) + (l2.length : ℤ))) ∧
      (r.issues.length = 2 → calculateConsistencyScore r = 80) ∧
      (r.issues.length = 11 → calculateConsistencyScore r = 0) ∧
      (0 < calculateConsistencyScore r →
        calculateConsistencyScore ⟨r.issues ++ [i]⟩ =
          calculateConsistencyScore r - 10) := by
  refine ⟨?_, ?_, ?_, ?_⟩
  · unfold calculateConsistencyScore
    rw [List.length_append]
    push_cast
    ring_nf
  · intro h2
    unfold calculateConsistencyScore
    rw [h2]
    norm_num
  · intro h11
    unfold calculateConsistencyScore
    rw [h11]
    norm_num
  · intro hpos
    unfold calculateConsistencyScore at hpos ⊢
    rw [List.length_append, List.length_singleton]
    push_cast at hpos ⊢
    omega

/-- C8 witness: a report with two issues scores 80. -/
theorem c8_consistency_score_witness :
    calculateConsistencyScore ⟨["a", "b"]⟩ = 80 :=
  (c8_consistency_score [] [] ⟨["a", "b"]⟩ "x").2.1 rfl

/-! ## Claims about the mapping classifier -/

theorem entryExact_figma_id (ccs : List ComponentInfo) :
    ∀ (e : String × FigmaComponent) (b : ExactMatch),
      entryExact ccs e = some b → b.figma_id = e.1 := by
  intro e b h
  unfold entryExact at h
  cases hfind : ccs.find? (fun cc => lowerName cc.name == lowerName e.2.name) with
  | none => rw [hfind] at h; simp at h
  | some cm =>
    rw [hfind] at h
    simp at h
    rw [← h]

theorem entrySimilar_figma_id (ccs : List ComponentInfo) :
    ∀ (e : String × FigmaComponent) (b : SimilarMatch),
      entrySimilar ccs e = some b → b.figma_id = e.1 := by
  intro e b h
  unfold entrySimilar at h
  cases hfind : ccs.find? (fun cc => lowerName cc.name == lowerName e.2.name) with
  | some cm => rw [hfind] at h; simp at h
  | none =>
    rw [hfind] at h
    by_cases hempty : (similarMatchesFor ccs (lowerName e.2.name)).isEmpty
    · simp [hempty] at h
    · simp [hempty] at h
      rw [← h]

theorem entryMissing_figma_id (ccs : List ComponentInfo) :
    ∀ (e : String × FigmaComponent) (b : MissingInCode),
      entryMissing ccs e = some b → b.figma_id = e.1 := by
  intro e b h
  unfold entryMissing at h
  cases hfind : ccs.find? (fun cc => lowerName cc.name == lowerName e.2.name) with
  | some cm => rw [hfind] at h; simp at h
  | none =>
    rw [hfind] at h
    by_cases hempty : (similarMatchesFor ccs (lowerName e.2.name)).isEmpty
    · simp [hempty] at h
      rw [← h]
    · simp [hempty] at h

/-- C1: every design component of a run lands in exactly one of
`exact_matches`, `similar_matches`, `missing_in_code` — the number of
entries carrying its id across the three groups is exactly one (so never
zero and never more than one), given that the ids enumerated from the
design-component object are distinct, as `Object.entries` guarantees. -/
theorem c1_exactly_one_group (es : List (String × FigmaComponent))
    (ccs : List ComponentInfo) (ip : Bool) (hnd : (es.map Prod.fst).Nodup)
    (id : String) (fc : FigmaComponent) (hmem : (id, fc) ∈ es) :
    ((createComponentMappings es ccs ip).exact_matches.map ExactMatch.figma_id).count id +
      ((createComponentMappings es ccs ip).similar_matches.map SimilarMatch.figma_id).count id +
      ((createComponentMappings es ccs ip).missing_in_code.map MissingInCode.figma_id).count id
      = 1 := by
  rw [createComponentMappings_exact, createComponentMappings_similar,
    createComponentMappings_missing]
  rw [filterMap_map_key _ _ Prod.fst (entryExact_figma_id ccs) es,
    filterMap_map_key _ _ Prod.fst (entrySimilar_figma_id ccs) es,
    filterMap_map_key _ _ Prod.fst (entryMissing_figma_id ccs) es]
  have hpart : ∀ e ∈ es,
      ((entryExact ccs e).isSome ∧ ¬(entrySimilar ccs e).isSome ∧
        ¬(entryMissing ccs e).isSome) ∨
      (¬(entryExact ccs e).isSome ∧ (entrySimilar ccs e).isSome ∧
        ¬(entryMissing ccs e).isSome) ∨
      (¬(entryExact ccs e).isSome ∧ ¬(entrySimilar ccs e).isSome ∧
        (entryMissing ccs e).isSome) := by
    intro e _
    rcases entry_cases ccs e with ⟨h1, h2, h3⟩ | ⟨h1, h2, h3⟩ | ⟨h1, h2, h3⟩
    · exact Or.inl ⟨h1, by simp [h2], by simp [h3]⟩
    · exact Or.inr (Or.inl ⟨by simp [h1], h2, by simp [h3]⟩)
    · exact Or.inr (Or.inr ⟨by simp [h1], by simp [h2], h3⟩)
  rw [count_filter_partition (fun e => (entryExact ccs e).isSome)
    (fun e => (entrySimilar ccs e).isSome) (fun e => (entryMissing ccs e).isSome)
    Prod.fst id es hpart]
  exact List.count_eq_one_of_mem hnd (List.mem_map.mpr ⟨(id, fc), hmem, rfl⟩)

/-- C1 witness: one design component with an exact code match. -/
theorem c1_exactly_one_group_witness :
    (((createComponentMappings [("1", ⟨"Button", none⟩)]
        [⟨"Button", "src/Button.tsx", "react", 10, [], []⟩] true).exact_matches.map
          ExactMatch.figma_id).count "1") +
      (((createComponentMappings [("1", ⟨"Button", none⟩)]
        [⟨"Button", "src/Button.tsx", "react", 10, [], []⟩] true).similar_matches.map
          SimilarMatch.figma_id).count "1") +
      (((createComponentMappings [("1", ⟨"Button", none⟩)]
        [⟨"Button", "src/Button.tsx", "react", 10, [], []⟩] true).missing_in_code.map
          MissingInCode.figma_id).count "1") = 1 :=
  c1_exactly_one_group [("1", ⟨"Button", none⟩)]
    [⟨"Button", "src/Button.tsx", "react", 10, [], []⟩] true (by decide)
    "1" ⟨"Button", none⟩ (by decide)

theorem referencedName_iff_mem (m : Mappings) (n : String) :
    ReferencedName m n ↔ n ∈ mappedNames m := by
  unfold ReferencedName mappedNames
  rw [List.mem_append]
  constructor
  · rintro (⟨em, hem, hname⟩ | ⟨sm, hsm, s, hs, hname⟩)
    · exact Or.inl (List.mem_map.mpr ⟨em, hem, hname⟩)
    · exact Or.inr (List.mem_flatMap.mpr ⟨sm, hsm, List.mem_map.mpr ⟨s, hs, hname⟩⟩)
  · rintro (hmem | hmem)
    · rcases List.mem_map.mp hmem with ⟨em, hem, hname⟩
      exact Or.inl ⟨em, hem, hname⟩
    · rcases List.mem_flatMap.mp hmem with ⟨sm, hsm, hmem2⟩
      rcases List.mem_map.mp hmem2 with ⟨s, hs, hname⟩
      exact Or.inr ⟨sm, hsm, s, hs, hname⟩

/-- C2: `missing_in_figma` is exactly (by name) the set of code
components not consumed by `exact_matches` and not suggested by any
`similar_matches` entry: each of its entries is the projection of a code
component whose name is unreferenced, and every code component with an
unreferenced name contributes an entry. -/
theorem c2_missing_in_figma (es : List (String × FigmaComponent))
    (ccs : List ComponentInfo) (ip : Bool) :
    (∀ mf ∈ (createComponentMappings es ccs ip).missing_in_figma,
      ¬ ReferencedName (createComponentMappings es ccs ip) mf.name ∧
        ∃ cc ∈ ccs, mf = ⟨cc.name, cc.path, cc.framework⟩) ∧
    (∀ cc ∈ ccs, ¬ ReferencedName (createComponentMappings es ccs ip) cc.name →
      ∃ mf ∈ (createComponentMappings es ccs ip).missing_in_figma,
        mf.name = cc.name) := by
  have hfig := createComponentMappings_missing_figma es ccs ip
  constructor
  · intro mf hmf
    rw [hfig] at hmf
    rcases List.mem_map.mp hmf with ⟨cc, hccfil, rfl⟩
    rcases List.mem_filter.mp hccfil with ⟨hccmem, hkeep⟩
    refine ⟨?_, cc, hccmem, rfl⟩
    rw [referencedName_iff_mem]
    rw [Bool.not_eq_true'] at hkeep
    show cc.name ∉ mappedNames (createComponentMappings es ccs ip)
    intro hmem
    have hc : (mappedNames (createComponentMappings es ccs ip)).contains cc.name = true :=
      List.elem_iff.mpr hmem
    rw [hkeep] at hc
    simp at hc
  · intro cc hccmem hnref
    rw [referencedName_iff_mem] at hnref
    refine ⟨⟨cc.name, cc.path, cc.framework⟩, ?_, rfl⟩
    rw [hfig]
    refine List.mem_map.mpr ⟨cc, List.mem_filter.mpr ⟨hccmem, ?_⟩, rfl⟩
    rw [Bool.not_eq_true']
    rw [← Bool.not_eq_true]
    intro hcont
    exact hnref (List.elem_iff.mp hcont)

/-- C2 witness: with no design components, the single code component is
routed to `missing_in_figma`. -/
theorem c2_missing_in_figma_witness :
    ∃ mf ∈ (createComponentMappings []
      [⟨"Button", "src/Button.tsx", "react", 10, [], []⟩] true).missing_in_figma,
      mf.name = "Button" :=
  (c2_missing_in_figma [] [⟨"Button", "src/Button.tsx", "react", 10, [], []⟩] true).2
    ⟨"Button", "src/Button.tsx", "react", 10, [], []⟩ (by decide)
    (by rw [referencedName_iff_mem]; decide)

theorem find?_first {α : Type} (p : α → Bool) :
    ∀ (l : List α) (a : α), l.find? p = some a →
      ∃ l1 l2, l = l1 ++ a :: l2 ∧ p a = true ∧ ∀ x ∈ l1, ¬ p x = true := by
  intro l
  induction l with
  | nil => intro a h; simp at h
  | cons b bs ih =>
    intro a h
    cases hb : p b with
    | true =>
      rw [List.find?_cons_of_pos _ hb] at h
      obtain rfl : b = a := by injection h
      exact ⟨[], bs, rfl, hb, by simp⟩
    | false =>
      rw [List.find?_cons_of_neg _ (by simp [hb])] at h
      obtain ⟨l1, l2, rfl, hpa, hl1⟩ := ih a h
      refine ⟨b :: l1, l2, rfl, hpa, ?_⟩
      intro x hx
      rcases List.mem_cons.mp hx with rfl | hx'
      · simp [hb]
      · exact hl1 x hx'

/-- C6: a design component whose lower-cased name equals some code
component's lower-cased name yields an exact-match entry with
confidence `1.0`, paired with the *first* such code component in the
code-component list's order. -/
theorem c6_exact_match_first (es : List (String × FigmaComponent))
    (ccs : List ComponentInfo) (ip : Bool) (id : String) (fc : FigmaComponent)
    (hmem : (id, fc) ∈ es) (cc : ComponentInfo) (hcc : cc ∈ ccs)
    (hname : lowerName cc.name = lowerName fc.name) :
    ∃ em ∈ (createComponentMappings es ccs ip).exact_matches,
      em.figma_id = id ∧ em.figma_name = fc.name ∧ em.confidence = 1 ∧
      lowerName em.code_component.name = lowerName fc.name ∧
      ∃ l1 l2, ccs = l1 ++ em.code_component :: l2 ∧
        ∀ c ∈ l1, lowerName c.name ≠ lowerName fc.name := by
  have hsome : (ccs.find? (fun c => lowerName c.name == lowerName fc.name)).isSome := by
    rw [List.find?_isSome]
    exact ⟨cc, hcc, by simp [hname]⟩
  obtain ⟨cm, hfind⟩ := Option.isSome_iff_exists.mp hsome
  obtain ⟨l1, l2, hsplit, hpcm, hl1⟩ := find?_first _ ccs cm hfind
  refine ⟨⟨id, fc.name, cm, 1⟩, ?_, rfl, rfl, rfl, ?_, l1, l2, hsplit, ?_⟩
  · rw [createComponentMappings_exact]
    refine List.mem_filterMap.mpr ⟨(id, fc), hmem, ?_⟩
    unfold entryExact
    rw [hfind]
    rfl
  · simpa using hpcm
  · intro c hc hceq
    exact hl1 c hc (by simp [hceq])

/-- C6 witness: the first of two equally named code components is
chosen. -/
theorem c6_exact_match_first_witness :
    ∃ em ∈ (createComponentMappings [("7", ⟨"Card", none⟩)]
      [⟨"card", "a.tsx", "react", 1, [], []⟩, ⟨"Card", "b.tsx", "react", 2, [], []⟩]
      false).exact_matches,
      em.figma_id = "7" ∧ em.figma_name = "Card" ∧ em.confidence = 1 ∧
      lowerName em.code_component.name = lowerName "Card" ∧
      ∃ l1 l2, [⟨"card", "a.tsx", "react", 1, [], []⟩,
          (⟨"Card", "b.tsx", "react", 2, [], []⟩ : ComponentInfo)] =
          l1 ++ em.code_component :: l2 ∧
        ∀ c ∈ l1, lowerName c.name ≠ lowerName "Card" :=
  c6_exact_match_first [("7", ⟨"Card", none⟩)]
    [⟨"card", "a.tsx", "react", 1, [], []⟩, ⟨"Card", "b.tsx", "react", 2, [], []⟩]
    false "7" ⟨"Card", none⟩ (by decide) ⟨"card", "a.tsx", "react", 1, [], []⟩
    (by decide) (by decide)

/-- C7: for a design component with no exact match, the similar-match
pipeline: candidates are each code component scored against the
lower-cased names, kept only above `0.5`, sorted descending (a stable
permutation: equal-score candidates keep the code-component order), and
at most the top 3 recorded; with no surviving candidate the component is
recorded missing-in-code with its description carried through (empty
when absent). -/
theorem c7_similar_pipeline (es : List (String × FigmaComponent))
    (ccs : List ComponentInfo) (ip : Bool) (id : String) (fc : FigmaComponent)
    (hmem : (id, fc) ∈ es)
    (hnone : ccs.find? (fun cc => lowerName cc.name == lowerName fc.name) = none) :
    (candidatesFor ccs (lowerName fc.name) ≠ [] →
      ∃ sm ∈ (createComponentMappings es ccs ip).similar_matches,
        sm.figma_id = id ∧ sm.figma_name = fc.name ∧
        sm.suggestions = (sortBySimDesc (candidatesFor ccs (lowerName fc.name))).take 3 ∧
        sm.suggestions.length ≤ 3 ∧
        sm.suggestions.Pairwise (fun a b => simKey b ≤ simKey a) ∧
        (∀ s ∈ sm.suggestions, jsGtHalf s.similarity = true ∧ s.component ∈ ccs ∧
          s.similarity =
            calculateNameSimilarity (lowerName fc.name) (lowerName s.component.name)) ∧
        (sortBySimDesc (candidatesFor ccs (lowerName fc.name))).Perm
          (candidatesFor ccs (lowerName fc.name)) ∧
        (∀ q : ℚ,
          (sortBySimDesc (candidatesFor ccs (lowerName fc.name))).filter
              (fun s => decide (simKey s = q)) =
            (candidatesFor ccs (lowerName fc.name)).filter
              (fun s => decide (simKey s = q)))) ∧
    (candidatesFor ccs (lowerName fc.name) = [] →
      ∃ mc ∈ (createComponentMappings es ccs ip).missing_in_code,
        mc.figma_id = id ∧ mc.figma_name = fc.name ∧
        mc.description = fc.description.getD "") := by
  constructor
  · intro hne
    have hempty : (similarMatchesFor ccs (lowerName fc.name)).isEmpty = false := by
      unfold similarMatchesFor
      rw [List.isEmpty_eq_false_iff_exists_mem]
      obtain ⟨x, hx⟩ := List.exists_mem_of_ne_nil _ hne
      exact ⟨x, (sortBySimDesc_perm _).mem_iff.mpr hx⟩
    refine ⟨⟨id, fc.name, (similarMatchesFor ccs (lowerName fc.name)).take 3⟩, ?_,
      rfl, rfl, rfl, ?_, ?_, ?_, sortBySimDesc_perm _, fun q => sortBySimDesc_stable _ q⟩
    · rw [createComponentMappings_similar]
      refine List.mem_filterMap.mpr ⟨(id, fc), hmem, ?_⟩
      unfold entrySimilar
      dsimp only
      rw [hnone, hempty]
      rfl
    · exact List.length_take_le 3 _
    · exact (sortBySimDesc_sorted _).sublist (List.take_sublist 3 _)
    · intro s hs
      have hs1 : s ∈ sortBySimDesc (candidatesFor ccs (lowerName fc.name)) :=
        List.mem_of_mem_take hs
      have hs2 : s ∈ candidatesFor ccs (lowerName fc.name) :=
        (sortBySimDesc_perm _).mem_iff.mp hs1
      rcases List.mem_filter.mp hs2 with ⟨hsmap, hsgt⟩
      rcases List.mem_map.mp hsmap with ⟨cc, hccmem, rfl⟩
      exact ⟨hsgt, hccmem, rfl⟩
  · intro heq
    have hempty : (similarMatchesFor ccs (lowerName fc.name)).isEmpty = true := by
      unfold similarMatchesFor
      rw [heq]
      rfl
    refine ⟨⟨id, fc.name, fc.description.getD ""⟩, ?_, rfl, rfl, rfl⟩
    rw [createComponentMappings_missing]
    refine List.mem_filterMap.mpr ⟨(id, fc), hmem, ?_⟩
    unfold entryMissing
    dsimp only
    rw [hnone, hempty]
    rfl

/-- C7 witness: with an empty code-component collection the filtered
candidate list is empty and the design component is recorded
missing-in-code with an empty description. -/
theorem c7_similar_pipeline_witness :
    ∃ mc ∈ (createComponentMappings [("3", ⟨"Button", none⟩)] [] true).missing_in_code,
      mc.figma_id = "3" ∧ mc.figma_name = ("Button" : String) ∧ mc.description = "" :=
  (c7_similar_pipeline [("3", ⟨"Button", none⟩)] [] true "3" ⟨"Button", none⟩
    (by decide) rfl).2 rfl

/-! ## Claims about the heuristic extractors -/

theorem dropLit_eq_some (lit : List Char) :
    ∀ (l r : List Char), dropLit lit l = some r ↔ l = lit ++ r := by
  induction lit with
  | nil =>
    intro l r
    constructor
    · intro h; simpa [dropLit] using h
    · intro h; rw [h]; rfl
  | cons c cs ih =>
    intro l r
    cases l with
    | nil =>
      constructor
      · intro h; simp [dropLit] at h
      · intro h; simp at h
    | cons x xs =>
      constructor
      · intro h
        rw [dropLit] at h
        by_cases hcx : c = x
        · rw [if_pos hcx] at h
          rw [(ih xs r).mp h, hcx]
          rfl
        · rw [if_neg hcx] at h
          simp at h
      · intro h
        rw [List.cons_append] at h
        injection h with h1 h2
        rw [dropLit, if_pos h1.symm]
        exact (ih xs r).mpr h2

theorem dropLit_self_append (lit r : List Char) : dropLit lit (lit ++ r) = some r :=
  (dropLit_eq_some lit (lit ++ r) r).mpr rfl

theorem word_not_space (c : Char) (h : isWordChar c = true) : isSpaceChar c = false := by
  cases hc : isSpaceChar c
  · rfl
  · exfalso
    unfold isSpaceChar at hc
    simp only [Bool.or_eq_true, beq_iff_eq] at hc
    rcases hc with ((((h1 | h1) | h1) | h1) | h1) | h1 <;>
      (subst h1; exact absurd h (by decide))

theorem takeWhile_all_append (p : Char → Bool) (xs ys : List Char)
    (h : ∀ x ∈ xs, p x = true) :
    (xs ++ ys).takeWhile p = xs ++ ys.takeWhile p := by
  induction xs with
  | nil => rfl
  | cons x xs ih =>
    rw [List.cons_append, List.takeWhile_cons,
      if_pos (h x (List.mem_cons_self x xs)), List.cons_append,
      ih (fun y hy => h y (List.mem_cons_of_mem x hy))]

theorem dropWhile_all_append (p : Char → Bool) (xs ys : List Char)
    (h : ∀ x ∈ xs, p x = true) :
    (xs ++ ys).dropWhile p = ys.dropWhile p := by
  induction xs with
  | nil => rfl
  | cons x xs ih =>
    rw [List.cons_append, List.dropWhile_cons,
      if_pos (h x (List.mem_cons_self x xs)),
      ih (fun y hy => h y (List.mem_cons_of_mem x hy))]

theorem hasSub_cons_false (pat : List Char) (c : Char) (cs : List Char)
    (h : hasSub pat (c :: cs) = false) : hasSub pat cs = false := by
  unfold hasSub at h ⊢
  rw [List.tails] at h
  rw [List.any_cons] at h
  exact (Bool.or_eq_false_iff.mp h).2

theorem hasSub_self_false (pat l : List Char) (h : hasSub pat l = false) :
    dropLit pat l = none := by
  unfold hasSub at h
  cases hd : dropLit pat l with
  | none => rfl
  | some r =>
    exfalso
    have hmem : l ∈ l.tails := (List.mem_tails l l).mpr (List.suffix_refl l)
    have := List.any_eq_false.mp h l hmem
    rw [hd] at this
    simp at this

theorem matchExportAt_none_of_no_export (l : List Char)
    (h : dropLit "export".data l = none) : matchExportAt l = none := by
  unfold matchExportAt
  rw [h]

theorem exportScanAux_nil_of_no_export :
    ∀ (fuel : Nat) (l : List Char), hasSub "export".data l = false →
      exportScanAux fuel l = [] := by
  intro fuel
  induction fuel with
  | zero => intro l _; rfl
  | succ fuel ih =>
    intro l h
    cases l with
    | nil => rfl
    | cons c cs =>
      rw [exportScanAux,
        matchExportAt_none_of_no_export _ (hasSub_self_false _ _ h)]
      exact ih cs (hasSub_cons_false _ _ _ h)

theorem reactAlt2At_of_shape (nm v : List Char) (h1 : nm ≠ [])
    (h2 : ∀ c ∈ nm, isWordChar c = true) :
    reactAlt2At ("function ".data ++ nm ++ '(' :: v) = true := by
  obtain ⟨c, rest, hnm⟩ := List.exists_cons_of_ne_nil h1
  have hsplit : "function ".data ++ nm ++ '(' :: v
      = "function".data ++ (' ' :: (nm ++ '(' :: v)) := by
    have : ("function " : String).data = "function".data ++ [' '] := by decide
    rw [this, List.append_assoc]
    rfl
  have hds : dropSpaces1 (' ' :: (nm ++ '(' :: v))
      = some ((nm ++ '(' :: v).dropWhile isSpaceChar) := rfl
  have hdw : (nm ++ '(' :: v).dropWhile isSpaceChar = nm ++ '(' :: v := by
    rw [hnm, List.cons_append, List.dropWhile_cons,
      if_neg (by rw [word_not_space c (h2 c (by rw [hnm]; exact List.mem_cons_self c rest))]; simp)]
  have hrun : (nm ++ '(' :: v).takeWhile isWordChar = nm := by
    rw [takeWhile_all_append isWordChar nm ('(' :: v) h2, List.takeWhile_cons,
      if_neg (by decide)]
    simp
  have hdrop : (nm ++ '(' :: v).dropWhile isWordChar = '(' :: v := by
    rw [dropWhile_all_append isWordChar nm ('(' :: v) h2, List.dropWhile_cons,
      if_neg (by decide)]
  have hdw2 : ('(' :: v).dropWhile isSpaceChar = '(' :: v := by
    rw [List.dropWhile_cons, if_neg (by decide)]
  have hemp : nm.isEmpty = false := by rw [hnm]; rfl
  unfold reactAlt2At wordRun1
  rw [hsplit]
  simp only [dropLit_self_append, hds, hdw, hrun, hdrop, hdw2, hemp,
    Bool.false_eq_true, if_false]

/-- C9: a react file containing a bare (un-exported) function
declaration `function Name(` and no occurrence of `export` is still
detected as a component — `extractComponentInfo` produces a record — but
its `exports` list is empty: the detection pattern's second alternative
accepts un-exported function declarations while the export-extraction
regex requires the `export` keyword. -/
theorem c9_unexported_function_detected (fp content nm : String)
    (h1 : nm.data ≠ []) (h2 : ∀ c ∈ nm.data, isWordChar c = true)
    (h3 : hasSub ("function ".data ++ nm.data ++ ['(']) content.data = true)
    (h4 : hasSub "export".data content.data = false) :
    ∃ info, extractComponentInfo fp content "react" = some info ∧
      info.exports = [] := by
  have htest : reactTest content = true := by
    unfold hasSub at h3
    obtain ⟨t, htmem, htd⟩ := List.any_eq_true.mp h3
    obtain ⟨v, hv⟩ := Option.isSome_iff_exists.mp htd
    have ht : t = "function ".data ++ nm.data ++ ['('] ++ v :=
      (dropLit_eq_some _ _ _).mp hv
    have halt2 : reactAlt2At t = true := by
      have ht' : t = ("function ".data ++ nm.data) ++ '(' :: v := by
        rw [ht, List.append_assoc ("function ".data ++ nm.data) ['('] v]
        rfl
      rw [ht']
      exact reactAlt2At_of_shape nm.data v h1 h2
    unfold reactTest
    rw [List.any_eq_true]
    exact ⟨t, htmem, by rw [halt2, Bool.or_true]⟩
  refine ⟨⟨fileNameOf fp, fp, "react", content.length,
    extractExports content "react", extractProps content "react"⟩, ?_, ?_⟩
  · unfold extractComponentInfo frameworkTest
    rw [if_pos (by rfl), htest]
  · exact exportScanAux_nil_of_no_export _ _ h4

/-- C9 witness: a file with a bare `function Foo(` declaration and no
`export` keyword is detected with an empty exports list. -/
theorem c9_unexported_function_detected_witness :
    ∃ info, extractComponentInfo "/a/Foo.tsx"
      "function Foo(x) \x7b return x \x7d" "react" = some info ∧
      info.exports = [] :=
  c9_unexported_function_detected "/a/Foo.tsx"
    "function Foo(x) \x7b return x \x7d" "Foo"
    (by decide) (by decide) (by decide) (by decide)

theorem propsDeclAt_of_shape (inner1 tail2 : List Char) (h1 : inner1 ≠ [])
    (h2 : ∀ c ∈ inner1, c ≠ '\x7d') :
    propsDeclAt ("interface AProps \x7b".data ++ (inner1 ++ '\x7d' :: tail2))
      = some inner1 := by
  have hlit : ("interface AProps \x7b" : String).data
      = "interface".data ++ (' ' :: ("AProps".data ++ [' ', '\x7b'])) := by decide
  have hsplit1 : "interface AProps \x7b".data ++ (inner1 ++ '\x7d' :: tail2)
      = "interface".data ++
          (' ' :: ("AProps".data ++ (' ' :: '\x7b' :: (inner1 ++ '\x7d' :: tail2)))) := by
    rw [hlit]
    simp [List.append_assoc]
  have hz : ("AProps".data ++ (' ' :: '\x7b' :: (inner1 ++ '\x7d' :: tail2))).dropWhile
        isSpaceChar
      = "AProps".data ++ (' ' :: '\x7b' :: (inner1 ++ '\x7d' :: tail2)) := by
    rw [show ("AProps" : String).data = 'A' :: "Props".data from by decide,
      List.cons_append, List.dropWhile_cons, if_neg (by decide)]
  have hrun : ("AProps".data ++ (' ' :: '\x7b' :: (inner1 ++ '\x7d' :: tail2))).takeWhile
        isWordChar = "AProps".data := by
    rw [takeWhile_all_append isWordChar _ _ (by decide), List.takeWhile_cons,
      if_neg (by decide)]
    simp
  have hdropw : ("AProps".data ++ (' ' :: '\x7b' :: (inner1 ++ '\x7d' :: tail2))).dropWhile
        isWordChar = ' ' :: '\x7b' :: (inner1 ++ '\x7d' :: tail2) := by
    rw [dropWhile_all_append isWordChar _ _ (by decide), List.dropWhile_cons,
      if_neg (by decide)]
  have hdrops : (' ' :: '\x7b' :: (inner1 ++ '\x7d' :: tail2)).dropWhile isSpaceChar
      = '\x7b' :: (inner1 ++ '\x7d' :: tail2) := by
    rw [List.dropWhile_cons, if_pos (by decide), List.dropWhile_cons, if_neg (by decide)]
  have hinner : (inner1 ++ '\x7d' :: tail2).takeWhile (fun c => c ≠ '\x7d') = inner1 := by
    rw [takeWhile_all_append _ _ _ (fun c hc => decide_eq_true (h2 c hc)),
      List.takeWhile_cons, if_neg (by decide)]
    simp
  have hinner2 : (inner1 ++ '\x7d' :: tail2).dropWhile (fun c => c ≠ '\x7d')
      = '\x7d' :: tail2 := by
    rw [dropWhile_all_append _ _ _ (fun c hc => decide_eq_true (h2 c hc)),
      List.dropWhile_cons, if_neg (by decide)]
  unfold propsDeclAt
  rw [hsplit1, dropLit_self_append]
  simp only [Option.some_orElse]
  have hds : dropSpaces1
      (' ' :: ("AProps".data ++ (' ' :: '\x7b' :: (inner1 ++ '\x7d' :: tail2))))
      = some (("AProps".data ++
          (' ' :: '\x7b' :: (inner1 ++ '\x7d' :: tail2))).dropWhile isSpaceChar) := rfl
  rw [hds, hz]
  simp only [hrun, hdropw, hdrops]
  rw [if_pos (⟨by decide, by decide⟩ :
    (("AProps" : String).data ≠ [] ∧ "Props".data.isSuffixOf "AProps".data = true))]
  simp only [hinner, hinner2]
  rw [if_pos (⟨h1, by simp⟩ : (inner1 ≠ [] ∧ ('\x7d' :: tail2 ≠ [])))]

/-- C10: for a react file, props come only from the *first*
`…Props` declaration: with two declarations in sequence, the extracted
props are exactly the tokens of the first declaration's body, whatever
the second declaration contains — names appearing only in the second are
absent. -/
theorem c10_props_first_decl_only (inner1 inner2 : String)
    (h1 : inner1.data ≠ []) (h2 : ∀ c ∈ inner1.data, c ≠ '\x7d') :
    extractProps ("interface AProps \x7b" ++ inner1 ++ "\x7d interface BProps \x7b"
        ++ inner2 ++ "\x7d") "react" = propTokens inner1.data ∧
    (∀ n, n ∈ extractProps ("interface AProps \x7b" ++ inner1 ++
        "\x7d interface BProps \x7b" ++ inner2 ++ "\x7d") "react" →
      n ∈ propTokens inner1.data) := by
  have hdata : ("interface AProps \x7b" ++ inner1 ++ "\x7d interface BProps \x7b"
      ++ inner2 ++ "\x7d").data
      = "interface AProps \x7b".data ++ (inner1.data ++ '\x7d' ::
        (" interface BProps \x7b".data ++ (inner2.data ++ "\x7d".data))) := by
    simp only [String.data_append, List.append_assoc]
    rfl
  have hcap : firstPropsCapture ("interface AProps \x7b" ++ inner1 ++
      "\x7d interface BProps \x7b" ++ inner2 ++ "\x7d").data = some inner1.data := by
    rw [hdata]
    rw [show ("interface AProps \x7b" : String).data
      = 'i' :: "nterface AProps \x7b".data from by decide, List.cons_append]
    simp only [firstPropsCapture]
    rw [show ('i' :: ("nterface AProps \x7b".data ++ (inner1.data ++ '\x7d' ::
        (" interface BProps \x7b".data ++ (inner2.data ++ "\x7d".data)))))
      = "interface AProps \x7b".data ++ (inner1.data ++ '\x7d' ::
        (" interface BProps \x7b".data ++ (inner2.data ++ "\x7d".data))) from by
      rw [← List.cons_append]]
    rw [propsDeclAt_of_shape _ _ h1 h2]
    rfl
  have hmain : extractProps ("interface AProps \x7b" ++ inner1 ++
      "\x7d interface BProps \x7b" ++ inner2 ++ "\x7d") "react"
      = propTokens inner1.data := by
    unfold extractProps
    rw [if_pos (by rfl), hcap]
  exact ⟨hmain, fun n hn => by rw [hmain] at hn; exact hn⟩

/-- C10 witness: with bodies `x: string ` and ` y: number `, the
extracted props are exactly `["x"]`, and `"y"` — declared only in the
second `…Props` interface — is absent. -/
theorem c10_props_first_decl_only_witness :
    extractProps ("interface AProps \x7b" ++ "x: string " ++
        "\x7d interface BProps \x7b" ++ " y: number " ++ "\x7d") "react"
      = propTokens ("x: string " : String).data ∧
    (∀ n, n ∈ extractProps ("interface AProps \x7b" ++ "x: string " ++
        "\x7d interface BProps \x7b" ++ " y: number " ++ "\x7d") "react" →
      n ∈ propTokens ("x: string " : String).data) :=
  c10_props_first_decl_only "x: string " " y: number " (by decide) (by decide)

/-! ## Adequacy of the fuel in the export-scan loop -/

theorem dropLit_length (lit l r : List Char) (h : dropLit lit l = some r) :
    r.length + lit.length = l.length := by
  rw [(dropLit_eq_some lit l r).mp h, List.length_append]
  omega

theorem dropSpaces1_length (l r : List Char) (h : dropSpaces1 l = some r) :
    r.length < l.length := by
  unfold dropSpaces1 at h
  cases l with
  | nil => simp at h
  | cons x xs =>
    dsimp only at h
    by_cases hx : isSpaceChar x
    · rw [if_pos hx] at h
      injection h with h
      have := (List.dropWhile_sublist (l := xs) isSpaceChar).length_le
      rw [h] at this
      simp only [List.length_cons]
      omega
    · rw [if_neg hx] at h
      simp at h

theorem wordRun1_length (l : List Char) (s : String) (r : List Char)
    (h : wordRun1 l = some (s, r)) : r.length < l.length := by
  unfold wordRun1 at h
  by_cases he : (l.takeWhile isWordChar).isEmpty
  · rw [if_pos he] at h
    simp at h
  · rw [if_neg he] at h
    injection h with h
    rw [Prod.mk.injEq] at h
    obtain ⟨hs, hr⟩ := h
    cases l with
    | nil => simp [List.isEmpty_nil] at he
    | cons x xs =>
      rw [List.takeWhile_cons] at he
      by_cases hx : isWordChar x
      · rw [← hr, List.dropWhile_cons, if_pos hx]
        have := (List.dropWhile_sublist (l := xs) isWordChar).length_le
        simp only [List.length_cons]
        omega
      · rw [if_neg hx] at he
        simp at he

theorem kwNameAfter_length (l : List Char) (s : String) (r : List Char)
    (h : kwNameAfter l = some (s, r)) : r.length < l.length := by
  unfold kwNameAfter at h
  have hr1len : ∀ r1 : List Char,
      (dropLit "function".data l <|> dropLit "const".data l
        <|> dropLit "class".data l) = some r1 → r1.length < l.length := by
    intro r1 hkw
    cases ha : dropLit "function".data l with
    | some x =>
      rw [ha, Option.some_orElse] at hkw
      injection hkw with hkw
      subst hkw
      have := dropLit_length _ _ _ ha
      simp at this
      omega
    | none =>
      rw [ha, Option.none_orElse] at hkw
      cases hb : dropLit "const".data l with
      | some x =>
        rw [hb, Option.some_orElse] at hkw
        injection hkw with hkw
        subst hkw
        have := dropLit_length _ _ _ hb
        simp at this
        omega
      | none =>
        rw [hb, Option.none_orElse] at hkw
        have := dropLit_length _ _ _ hkw
        simp at this
        omega
  cases hkw : (dropLit "function".data l <|> dropLit "const".data l
      <|> dropLit "class".data l) with
  | none => simp [hkw] at h
  | some r1 =>
    simp only [hkw] at h
    have hr1 := hr1len r1 hkw
    cases hsp : dropSpaces1 r1 with
    | none => simp [hsp] at h
    | some r2 =>
      simp only [hsp] at h
      have hr2 := dropSpaces1_length _ _ hsp
      have hr3 := wordRun1_length _ _ _ h
      omega

theorem matchExportAt_rest_length (l : List Char) (name : String) (r : List Char)
    (h : matchExportAt l = some (name, r)) : r.length < l.length := by
  unfold matchExportAt at h
  cases hex : dropLit "export".data l with
  | none => simp [hex] at h
  | some r1 =>
    simp only [hex] at h
    have hr1 : r1.length < l.length := by
      have := dropLit_length _ _ _ hex; simp at this; omega
    cases hsp : dropSpaces1 r1 with
    | none => simp [hsp] at h
    | some r2 =>
      simp only [hsp] at h
      have hr2 := dropSpaces1_length _ _ hsp
      cases hdef : dropLit "default".data r2 with
      | none =>
        simp only [hdef] at h
        have := kwNameAfter_length _ _ _ h
        omega
      | some rd =>
        simp only [hdef] at h
        have hrd : rd.length < r2.length := by
          have := dropLit_length _ _ _ hdef; simp at this; omega
        cases hsp2 : dropSpaces1 rd with
        | none => simp [hsp2] at h
        | some rd2 =>
          simp only [hsp2] at h
          have hrd2 := dropSpaces1_length _ _ hsp2
          have := kwNameAfter_length _ _ _ h
          omega

theorem exportScanAux_nil_input : ∀ fuel : Nat, exportScanAux fuel [] = [] := by
  intro fuel
  cases fuel <;> rfl

/-- The fuel passed to `exportScanAux` is irrelevant as soon as it is at
least the input length: every loop iteration consumes at least one
character, so `extractExports`'s choice `fuel = content.length` computes
the full `exec` loop. -/
theorem exportScanAux_fuel :
    ∀ (fuel1 fuel2 : Nat) (l : List Char), l.length ≤ fuel1 → l.length ≤ fuel2 →
      exportScanAux fuel1 l = exportScanAux fuel2 l := by
  intro fuel1
  induction fuel1 with
  | zero =>
    intro fuel2 l h1 _
    have : l = [] := List.length_eq_zero.mp (by omega)
    rw [this, exportScanAux_nil_input, exportScanAux_nil_input]
  | succ fuel ih =>
    intro fuel2 l h1 h2
    cases l with
    | nil => rw [exportScanAux_nil_input, exportScanAux_nil_input]
    | cons c cs =>
      cases fuel2 with
      | zero => simp at h2
      | succ f2 =>
        rw [exportScanAux, exportScanAux]
        cases hm : matchExportAt (c :: cs) with
        | none =>
          simp only [hm]
          exact ih f2 cs (by simp at h1; omega) (by simp at h2; omega)
        | some p =>
          obtain ⟨name, rest⟩ := p
          have hlt := matchExportAt_rest_length _ _ _ hm
          simp only [hm, List.length_cons] at *
          rw [ih f2 rest (by omega) (by omega)]
